import Mathlib

/-!
Verification of the DiscMapper capture/classification engines
(`App/discmapper_v02.py` — movies, `App/discmapper_tv_v02.py` — TV)
against their natural-language specification.

The Python functions are shallowly embedded: pure helpers become Lean
functions, the imperative dynamic program becomes structural recursion on
the loop indices, floats that only ever carry exact duration arithmetic
are rendered as `ℚ`, and the filesystem / subprocess side effects are
modelled by explicit oracles (media-presence poll answers, ripper exit
codes, move-attempt success flags, a `taken : String → Bool` view of the
destination directory).
-/

namespace DiscMapper

/-! ## DurationEstimator (`compute_typical_runtime_seconds`, discmapper_tv_v02.py:378) -/

/-- Middle extraction from an already sorted list: the middle element
(odd length) or the truncated mean of the two middle elements (even
length).  `int()` truncation of `(a+b)/2.0` for nonnegative integers is
`Nat` division by 2. -/
def middleOf (s : List ℕ) : ℕ :=
  if s.length % 2 = 1 then s.getD (s.length / 2) 0
  else (s.getD (s.length / 2 - 1) 0 + s.getD (s.length / 2) 0) / 2

/-- Embedding of Python `int(statistics.median(durs))` for a list of
nonnegative integer durations: sort, then extract the middle.
Python's sorting is stable on `≤`, rendered by `List.insertionSort`
(stable sorts agree on a total preorder). -/
def pyMedian (l : List ℕ) : ℕ :=
  middleOf (l.insertionSort (· ≤ ·))

/-- Embedding of `max(1, int(round(len(durs) * 0.20)))` from
`compute_typical_runtime_seconds`.  `n * 0.2` can never lie exactly half
way between two integers (its exact value has fractional part 0, .2, .4,
.6 or .8, and the float product rounds to well within, keeping the same
nearest integer), so Python's banker's rounding is plain
nearest-integer rounding: `(2n + 5) / 10` in `Nat` division. -/
def trimCount (n : ℕ) : ℕ := max 1 ((2 * n + 5) / 10)

/-- The trimmed core `durs[trim : len(durs) - trim]` of the sorted
duration list. -/
def trimmedCore (durs : List ℕ) : List ℕ :=
  let trim := trimCount durs.length
  (durs.drop trim).take (durs.length - 2 * trim)

/-- Embedding of `compute_typical_runtime_seconds(files)`
(discmapper_tv_v02.py:378).  A file contributes iff its probed
`duration_s` is present (`isinstance(..., int)`); the durations are
sorted, and when at least 5 remain the lowest/highest ≈20% are trimmed
before taking the median, falling back to the untrimmed list if the
trim would empty it. -/
def compute_typical_runtime_seconds (files : List (Option ℕ)) : Option ℕ :=
  let durs := (files.filterMap id).insertionSort (· ≤ ·)
  if durs.isEmpty then none
  else
    let durs2 :=
      if 5 ≤ durs.length then
        let core := trimmedCore durs
        if core.isEmpty then durs else core
      else durs
    some (pyMedian durs2)

/-- The trim the spec sentence describes: "lowest and highest ~20%
(rounded up, at least 1 each side)".  Modelled from the spec for
comparison with the source's `trimCount` (which rounds to nearest); the
two trims always contain the same median since symmetric trimming of a
sorted list preserves its middle element(s). -/
def specTrimCount (n : ℕ) : ℕ := max 1 ((n + 4) / 5)

/-- The remainder after the spec's rounded-up trim. -/
def specTrimmedCore (durs : List ℕ) : List ℕ :=
  let trim := specTrimCount durs.length
  (durs.drop trim).take (durs.length - 2 * trim)

/-! ## WindowBuilder (`build_episode_windows`, discmapper_tv_v02.py:395) -/

/-- The per-episode manifest fields the window builder reads:
`to_int(e.get("min_minutes"))` / `to_int(e.get("max_minutes"))`. -/
structure EpManifest where
  min_minutes : Option ℤ
  max_minutes : Option ℤ
deriving DecidableEq, Repr

/-- Embedding of `build_episode_windows(eps, typical_s, manifest_buf_min,
typical_buf_min, special_delta_min)` (discmapper_tv_v02.py:395),
returning each episode's `(min_s, max_s)` acceptance window.
`minutes_to_seconds(m)` is `60 * m` for integer minutes; the float
midpoint comparison `abs(expected_mid_m - typical_m) >= special_delta_min`
is carried out exactly in `ℚ`. -/
def build_episode_windows (eps : List EpManifest) (typical_s : ℤ)
    (manifest_buf_min typical_buf_min special_delta_min : ℤ) : List (ℤ × ℤ) :=
  let typical_min_s := max 60 (typical_s - 60 * typical_buf_min)
  let typical_max_s := typical_s + 60 * typical_buf_min
  let typical_m : ℚ := (typical_s : ℚ) / 60
  eps.map fun e =>
    match e.min_minutes, e.max_minutes with
    | some mi, some ma =>
      let expected_mid_m : ℚ := ((mi : ℚ) + (ma : ℚ)) / 2
      if (special_delta_min : ℚ) ≤ |expected_mid_m - typical_m| then
        (max 60 (60 * max 1 (mi - manifest_buf_min)), 60 * (ma + manifest_buf_min))
      else
        let raw_min_s := max 60 (60 * max 1 (mi - manifest_buf_min))
        let raw_max_s := 60 * (ma + manifest_buf_min)
        if raw_min_s ≤ typical_s ∧ typical_s ≤ raw_max_s then
          (max raw_min_s typical_min_s, min raw_max_s typical_max_s)
        else
          (typical_min_s, typical_max_s)
    | _, _ => (typical_min_s, typical_max_s)

/-! ## SequenceMatcher (`dp_map_files_to_episodes`, discmapper_tv_v02.py:437) -/

/-- An expected episode with its acceptance window (`min_s`/`max_s`). -/
structure EpWin where
  min_s : ℕ
  max_s : ℕ
deriving DecidableEq, Repr

instance : Inhabited EpWin := ⟨⟨0, 0⟩⟩

/-- A ripped candidate file as the DP sees it: only the optional probed
duration matters to `cost`. -/
structure FileInfo where
  duration_s : Option ℕ
deriving DecidableEq, Repr

instance : Inhabited FileInfo := ⟨⟨none⟩⟩

/-- The infeasibility sentinel `INF = 10**18` of the Python DP. -/
def INF : ℚ := 10 ^ 18

/-- Embedding of the inner `cost(i, j)` of `dp_map_files_to_episodes`
(0-based here): `none` renders `float("inf")` — the file has no probed
duration or falls outside the episode's window — otherwise the absolute
distance in minutes from the window midpoint. -/
def matchCost (e : EpWin) (f : FileInfo) : Option ℚ :=
  match f.duration_s with
  | none => none
  | some dur =>
    if e.min_s ≤ dur ∧ dur ≤ e.max_s then
      some (|(dur : ℚ) - ((e.min_s : ℚ) + (e.max_s : ℚ)) / 2| / 60)
    else none

/-- Row 0 of the DP table, filled by
`dp[0][j] = dp[0][j - 1] + skip_penalty_minutes` with `dp[0][0] = 0`. -/
def dpRow0 (skip : ℚ) : ℕ → ℚ
  | 0 => 0
  | j + 1 => dpRow0 skip j + skip

/-- One DP row for a fixed episode `i ≥ 1`, computed left to right from
the previous row `prev`: `dp[i][0]` keeps its `INF` initialisation, and
`dp[i][j] = best` where `best` starts as the skip branch
`dp[i][j-1] + skip` and is replaced by the match branch
`dp[i-1][j-1] + cost` only when that is strictly smaller. -/
def dpEntry (prev : ℕ → ℚ) (c : ℕ → Option ℚ) (skip : ℚ) : ℕ → ℚ
  | 0 => INF
  | j + 1 =>
    let s := dpEntry prev c skip j + skip
    match c j with
    | none => s
    | some cv =>
      let cand := prev j + cv
      if cand < s then cand else s

/-- The DP table of `dp_map_files_to_episodes` as a function of the row
index: row 0 is the all-skip base row, row `i+1` is filled from row `i`.
`dpCost eps files skip i j` is the Python `dp[i][j]`. -/
def dpCost (eps : List EpWin) (files : List FileInfo) (skip : ℚ) : ℕ → ℕ → ℚ
  | 0 => dpRow0 skip
  | i + 1 =>
    dpEntry (dpCost eps files skip i)
      (fun j => matchCost (eps.getD i default) (files.getD j default)) skip

/-- The Python `take[i][j]` flag: `1` exactly when the match branch was
chosen, i.e. `cost(i, j)` is finite and `dp[i-1][j-1] + cost` is
strictly below the skip branch `dp[i][j-1] + skip`. -/
def takeFlag (eps : List EpWin) (files : List FileInfo) (skip : ℚ) (i j : ℕ) : Bool :=
  match i, j with
  | i + 1, j + 1 =>
    match matchCost (eps.getD i default) (files.getD j default) with
    | none => false
    | some cv =>
      decide (dpCost eps files skip i j + cv < dpCost eps files skip (i + 1) j + skip)
  | _, _ => false

/-- The backtracking loop `while i > 0 and j > 0` of
`dp_map_files_to_episodes`: a taken cell contributes the 0-based pair
`(i - 1, j - 1)` and moves diagonally, otherwise only `j` decreases.
Pairs are produced in the Python order (episodes descending). -/
def backtrack (eps : List EpWin) (files : List FileInfo) (skip : ℚ) : ℕ → ℕ → List (ℕ × ℕ)
  | 0, _ => []
  | _ + 1, 0 => []
  | i + 1, j + 1 =>
    if takeFlag eps files skip (i + 1) (j + 1) then
      (i, j) :: backtrack eps files skip i j
    else
      backtrack eps files skip (i + 1) j

/-- The value of `i` when the backtracking loop exits; the Python code
declares the job infeasible when it is nonzero (`if i != 0`). -/
def backtrackEnd (eps : List EpWin) (files : List FileInfo) (skip : ℚ) : ℕ → ℕ → ℕ
  | 0, _ => 0
  | i + 1, 0 => i + 1
  | i + 1, j + 1 =>
    if takeFlag eps files skip (i + 1) (j + 1) then
      backtrackEnd eps files skip i j
    else
      backtrackEnd eps files skip (i + 1) j

/-- The recomputed per-pair error
`abs(files[fj]["duration_s"] - (min_s + max_s) / 2) / 60`; a matched
file always has a probed duration (a missing one has infinite cost and
is never taken), rendered by `getD 0`. -/
def pairErr (eps : List EpWin) (files : List FileInfo) (p : ℕ × ℕ) : ℚ :=
  let e := eps.getD p.1 default
  let f := files.getD p.2 default
  |((f.duration_s.getD 0 : ℕ) : ℚ) - ((e.min_s : ℚ) + (e.max_s : ℚ)) / 2| / 60

/-- Embedding of `dp_map_files_to_episodes(eps_win, files,
skip_penalty_minutes)` (discmapper_tv_v02.py:437).  Returns
`(None, float("inf"))` — rendered `(none, INF)` — when `dp[m][n] >=
INF / 2` or backtracking fails to consume all episodes; otherwise the
reversed pair list with the mean per-pair error (`float("inf")`, again
rendered `INF`, if no pairs). -/
def dp_map_files_to_episodes (eps : List EpWin) (files : List FileInfo) (skip : ℚ) :
    Option (List (ℕ × ℕ)) × ℚ :=
  let m := eps.length
  let n := files.length
  if INF / 2 ≤ dpCost eps files skip m n then (none, INF)
  else if backtrackEnd eps files skip m n ≠ 0 then (none, INF)
  else
    let pairs := (backtrack eps files skip m n).reverse
    let errs := pairs.map (pairErr eps files)
    (some pairs, if errs.isEmpty then INF else errs.sum / errs.length)

/-! ## KeeperSelector (`pick_keeper_or_prompt`, discmapper_v02.py:676) -/

/-- One probed candidate cut as keeper selection sees it: the ffprobe
duration (a float, rendered `ℚ`; 0.0 when probing failed), the byte
size, and the path used to identify the keeper. -/
structure CutInfo where
  path : String
  duration_sec : ℚ
  size_bytes : ℕ
deriving DecidableEq, Repr

/-- The descending sort
`candidates.sort(key=lambda x: (x["duration_sec"], x["size_bytes"]), reverse=True)`:
a stable sort that puts `a` before `b` when `a`'s (duration, size) key
is lexicographically at least `b`'s (Python's `reverse=True` keeps
equal-key elements in discovery order, which is exactly stable
insertion on this relation). -/
def cutDescLE (a b : CutInfo) : Prop :=
  b.duration_sec < a.duration_sec ∨
    (b.duration_sec = a.duration_sec ∧ b.size_bytes ≤ a.size_bytes)

instance : DecidableRel cutDescLE := fun a b => by
  unfold cutDescLE
  infer_instance

/-- One step of the greedy clustering loop of `pick_keeper_or_prompt`:
scan the existing clusters in order and append the item to the first
cluster whose first (largest-duration) member is within `tol` seconds,
else open a new singleton cluster at the end. -/
def addToClusters (tol : ℚ) : List (List CutInfo) → CutInfo → List (List CutInfo)
  | [], it => [[it]]
  | cl :: rest, it =>
    match cl with
    | [] => (cl ++ [it]) :: rest
    | c0 :: _ =>
      if |c0.duration_sec - it.duration_sec| ≤ tol then (cl ++ [it]) :: rest
      else cl :: addToClusters tol rest it

/-- The feature-length candidates
`[x for x in infos if x["duration_sec"] >= min_main_seconds]`, sorted
descending by (duration, size). -/
def keeperCandidates (min_main_seconds : ℚ) (infos : List CutInfo) : List CutInfo :=
  (infos.filter (fun x => decide (min_main_seconds ≤ x.duration_sec))).insertionSort cutDescLE

/-- The duration clusters built from the sorted candidates. -/
def keeperClusters (tol min_main_seconds : ℚ) (infos : List CutInfo) : List (List CutInfo) :=
  (keeperCandidates min_main_seconds infos).foldl (addToClusters tol) []

/-- Embedding of Python `max(cluster, key=lambda x: x["size_bytes"])`:
the first maximal-size member. -/
def largestBySize (c0 : CutInfo) (rest : List CutInfo) : CutInfo :=
  rest.foldl (fun a b => if a.size_bytes < b.size_bytes then b else a) c0

/-- The outcome of `pick_keeper_or_prompt` up to the external
disambiguation dialog: `review` covers the no-file/no-candidate early
returns, `promptUser` is the multi-cut escalation (the engine hands the
sorted candidate list to the human dialog instead of deciding), and
`success` is auto-selection of a keeper. -/
inductive KeeperOutcome where
  | review (reason : String)
  | promptUser (candidates : List CutInfo)
  | success (keeperPath : String) (reason : String)
deriving DecidableEq, Repr

/-- `true` exactly on the multi-cut escalation outcome. -/
def escalatesToPrompt : KeeperOutcome → Bool
  | .promptUser _ => true
  | _ => false

/-- Embedding of the decision logic of `pick_keeper_or_prompt(config,
folder, min_main_seconds)` (discmapper_v02.py:676): filter by the
feature floor, sort descending, cluster within `tol`, escalate to the
user dialog only when there are at least two clusters whose top two
representative durations differ by more than `multi_cut`, otherwise
auto-select the largest file of the top cluster. -/
def pick_keeper_or_prompt (tol multi_cut min_main_seconds : ℚ) (infos : List CutInfo) :
    KeeperOutcome :=
  if infos.isEmpty then .review "no_mkv_files"
  else
    let candidates := keeperCandidates min_main_seconds infos
    match candidates with
    | [] => .review "no_candidate_over_floor"
    | _ :: _ =>
      match keeperClusters tol min_main_seconds infos with
      | [] => .review "no_candidate_over_floor"
      | cl0 :: restClusters =>
        let escalate :=
          match restClusters with
          | [] => false
          | cl1 :: _ =>
            match cl0, cl1 with
            | c00 :: _, c10 :: _ => decide (multi_cut < |c00.duration_sec - c10.duration_sec|)
            | _, _ => false
        if escalate then .promptUser candidates
        else
          match cl0 with
          | [] => .review "no_candidate_over_floor"
          | c0 :: rest => .success (largestBySize c0 rest).path "auto_selected_best_candidate"

/-! ## CapturePipeline — movies (`cmd_rip`, discmapper_v02.py:826) -/

/-- The failure causes the movies per-job `try` block can raise. -/
inductive MovieFailure where
  | discWaitTimeout
  | structureCheckFailed
  | makemkvError (rc : ℤ)
  | noMkvsProduced
  | zeroByteOutput
  | reviewRequired (reason : String)
  | commitVerificationFailed
deriving DecidableEq, Repr

/-- The quarantine areas a failed job folder can be relocated to. -/
inductive QRoot where
  | unable
  | review
deriving DecidableEq, Repr

/-- The `WAIT_FOR_DISC` poll loop of `cmd_rip` (discmapper_v02.py:927):
check media presence first, then the elapsed-time bound
`(monotonic - start) > max_wait_s`, then sleep `poll_s` and repeat.
`isLoaded k` is the media-presence answer at the `k`-th poll, at which
point `k * pollS` seconds have elapsed.  The fuel argument only bounds
the recursion; `waitForDisc` supplies enough for the timeout branch to
fire first (`pollS ≥ 1` because the code takes `max(1, poll)`). -/
def waitPoll (isLoaded : ℕ → Bool) (maxWaitS pollS : ℕ) : ℕ → ℕ → Bool
  | 0, _ => false
  | fuel + 1, k =>
    if isLoaded k then true
    else if maxWaitS < k * pollS then false
    else waitPoll isLoaded maxWaitS pollS fuel (k + 1)

/-- `true` iff the disc shows up before the disc-wait timeout. -/
def waitForDisc (isLoaded : ℕ → Bool) (maxWaitS pollS : ℕ) : Bool :=
  waitPoll isLoaded maxWaitS pollS (maxWaitS / pollS + 2) 0

/-- The classification result `cmd_rip` receives back from
`pick_keeper_or_prompt` after any user dialog is resolved: its `status`
is either `success` (with a keeper path) or `review` (with a reason). -/
inductive KeeperRes where
  | success (keeperPath : String)
  | review (reason : String)
deriving DecidableEq, Repr

/-- The timing knobs the wait loop reads. -/
structure Timing where
  maxWaitS : ℕ
  pollS : ℕ
deriving DecidableEq, Repr

/-- The external-world answers one queued movie job observes: media
presence per poll, disc structure check, ripper exit code, byte sizes of
the produced mkv files, resolved classification outcome, and whether the
committed destination exists non-empty afterwards. -/
structure MovieEnv where
  isLoaded : ℕ → Bool
  structureOk : Bool
  ripExitCode : ℤ
  outputSizes : List ℕ
  keeperRes : KeeperRes
  commitOk : Bool

/-- Embedding of the body of the per-job `try` block of `cmd_rip`
(discmapper_v02.py:922-1024), with each `raise` rendered as an
`Except.error` carrying the failure kind: disc-wait timeout, structure
mismatch, non-zero MakeMKV exit (raised before any output file is
examined), empty or zero-byte output set, non-success classification,
and the `safe_commit` destination check. -/
def movieJobPipeline (t : Timing) (env : MovieEnv) : Except MovieFailure Unit :=
  if waitForDisc env.isLoaded t.maxWaitS t.pollS = false then .error .discWaitTimeout
  else if env.structureOk = false then .error .structureCheckFailed
  else if env.ripExitCode ≠ 0 then .error (.makemkvError env.ripExitCode)
  else if env.outputSizes.isEmpty then .error .noMkvsProduced
  else if env.outputSizes.contains 0 then .error .zeroByteOutput
  else
    match env.keeperRes with
    | .review reason => .error (.reviewRequired reason)
    | .success _ =>
      if env.commitOk = false then .error .commitVerificationFailed
      else .ok ()

/-- The queue loop of `cmd_rip` (`for qpos, it in enumerate(items, ...)`):
every iteration's failures are caught by the per-job
`except Exception` handler, so each queued job is processed
independently — the loop body never escapes the run. -/
def runMovieQueue (t : Timing) (jobs : List MovieEnv) : List (Except MovieFailure Unit) :=
  jobs.map (movieJobPipeline t)

/-- Where the movies `except Exception` handler relocates a failed job's
raw folder (discmapper_v02.py:1030-1031): unconditionally
`move_folder(job_dir, unable_root)` — the failure kind is ignored. -/
def moviesQuarantineRoot (_e : MovieFailure) : QRoot := .unable

/-- The failure kinds of the TV `cmd_rip_queue` loop and where each
branch relocates the job folder (discmapper_tv_v02.py:755-801):
`safe_move(job_dir, unable_root / ...)` only for the no-MKVs branch,
`safe_move(job_dir, review_root / ...)` for every uncertain-
classification branch. -/
inductive TVFailure where
  | noMkvsProduced
  | ffprobeFailed
  | insufficientCandidates
  | typicalUnavailable
  | mappingUncertain
deriving DecidableEq, Repr

/-- The TV engine's per-failure quarantine destination. -/
def tvQuarantineRoot : TVFailure → QRoot
  | .noMkvsProduced => .unable
  | .ffprobeFailed => .review
  | .insufficientCandidates => .review
  | .typicalUnavailable => .review
  | .mappingUncertain => .review

/-- What the TV rip phase does right after MakeMKV returns
(discmapper_tv_v02.py:746-759): a non-zero exit code only prints a
warning; the job is sent to Unable-to-Read iff no MKV was produced,
otherwise processing continues to probing and classification. -/
inductive TVPostRip where
  | toUnable
  | continueProcessing
deriving DecidableEq, Repr

/-- Embedding of the TV post-rip dispatch; `rc` is ignored apart from
the warning print. -/
def tv_after_rip (_rc : ℤ) (mkvs : List String) : TVPostRip :=
  if mkvs.isEmpty then .toUnable else .continueProcessing

/-! ## The file mover (`safe_move`, discmapper_v02.py:735 and
discmapper_tv_v02.py:185 — the two copies are identical) -/

/-- How a `safe_move` call can end when it does not return normally:
the fallback `shutil.copytree`/`copy2` itself raised and the exception
propagated, or the final `if not dst.exists()` check raised the
`RuntimeError`. -/
inductive MoveErr where
  | copyRaised
  | destMissing
deriving DecidableEq, Repr

instance : DecidableEq (Except MoveErr Unit) := fun a b =>
  match a, b with
  | .ok (), .ok () => isTrue rfl
  | .error e, .error e' =>
    match decEq e e' with
    | isTrue h => isTrue (by rw [h])
    | isFalse h => isFalse (by intro hc; cases hc; exact h rfl)
  | .ok _, .error _ => isFalse (by intro hc; cases hc)
  | .error _, .ok _ => isFalse (by intro hc; cases hc)

/-- Observable trace of one `safe_move` call: the backoff sleeps the
retry loop performed, whether the copy-then-delete fallback ran, the
normal-return/raise outcome, and whether the destination exists at the
end. -/
structure SafeMoveRun where
  sleeps : List ℚ
  fellBack : Bool
  result : Except MoveErr Unit
  dstExists : Bool
deriving DecidableEq, Repr

/-- The retry loop `for attempt in range(retries)` of `safe_move`,
counting down the remaining attempts.  `mv k` tells whether the `k`-th
`shutil.move` call succeeds (0-based, matching Python's `attempt`); a
failed attempt sleeps `delay * (attempt + 1)`.  When all attempts are
exhausted the copy-then-delete fallback runs: `copyRes = none` models
the copy call raising (the exception propagates), `some dstOk` models it
completing with the destination existing iff `dstOk`; the source-delete
retry loop swallows its own failures and cannot affect the destination,
so it leaves no trace here.  Finally `if not dst.exists(): raise`. -/
def safeMoveGo (mv : ℕ → Bool) (copyRes : Option Bool) (delay : ℚ) :
    ℕ → ℕ → List ℚ → SafeMoveRun
  | 0, _, sleeps =>
    match copyRes with
    | none => ⟨sleeps.reverse, true, .error .copyRaised, false⟩
    | some dstOk =>
      if dstOk then ⟨sleeps.reverse, true, .ok (), true⟩
      else ⟨sleeps.reverse, true, .error .destMissing, false⟩
  | r + 1, k, sleeps =>
    if mv k then ⟨sleeps.reverse, false, .ok (), true⟩
    else safeMoveGo mv copyRes delay r (k + 1) (delay * (k + 1) :: sleeps)

/-- Embedding of `safe_move(src, dst, retries, delay)`. -/
def safe_move (mv : ℕ → Bool) (copyRes : Option Bool) (retries : ℕ) (delay : ℚ) :
    SafeMoveRun :=
  safeMoveGo mv copyRes delay retries 0 []

/-! ## Committed destination naming (C10): `build_finish_plan`
(discmapper_v02.py:569-581) and the TV duplicate suffix
(discmapper_tv_v02.py:824-826) -/

/-- The `n`-th candidate name of the movies collision loop: the plain
`stem + suffix` for `n = 0`, and `f"{stem} ({n}){suffix}"` for
`n ≥ 1`. -/
def movieCandName (stem suf : String) : ℕ → String
  | 0 => stem ++ suf
  | n + 1 => stem ++ " (" ++ toString (n + 1) ++ ")" ++ suf

/-- Embedding of the destination-collision handling of
`build_finish_plan`: keep `dest` when it does not exist, else scan
`n = 1, 2, ...` for the first ` (n)`-suffixed name that does not exist.
`taken` is the existence view of the destination directory; the Python
`while True` loop terminates exactly when some suffixed name is free,
which the hypothesis `h` states, and `Nat.find h` is the `n - 1` the
loop stops at. -/
def movieFinalDest (taken : String → Bool) (stem suf : String)
    (h : ∃ k, taken (movieCandName stem suf (k + 1)) = false) : String :=
  if taken (movieCandName stem suf 0) = false then movieCandName stem suf 0
  else movieCandName stem suf (Nat.find h + 1)

/-- Embedding of the TV duplicate handling in `cmd_rip_queue`:
`final = dest_file; if final.exists(): final = final.with_name(final.stem
+ f"__dup_{now_stamp()}.mkv")` — a single timestamped alternative,
chosen without re-checking its existence. -/
def tvFinalDest (taken : String → Bool) (stem stamp : String) : String :=
  if taken (stem ++ ".mkv") then stem ++ "__dup_" ++ stamp ++ ".mkv"
  else stem ++ ".mkv"

/-- The four probed files of the spec's KeeperSelector example: 148, 149,
90 and 30 minutes, in seconds, with their byte sizes. -/
def c3files : List CutInfo :=
  [⟨"t148", 8880, 5000000⟩, ⟨"t149", 8940, 4000000⟩,
   ⟨"t90", 5400, 3000000⟩, ⟨"t30", 1800, 1000000⟩]

/-!
## Theorems
-/

/-- C1, counterexample.  Claim: a disc-wait timeout on an earlier job
aborts the entire run, so the capture loop does not proceed to the next
queued job.  False on the code: the movies `TimeoutError` is raised
inside the per-job `try` block and caught by the per-job
`except Exception` handler, so on a two-job queue where the disc never
shows up, both jobs are attempted and both end in `discWaitTimeout` —
the loop does proceed to the second job. -/
theorem c1_counterexample :
    runMovieQueue ⟨60, 3⟩
      [⟨fun _ => false, true, 0, [1], .success "k", true⟩,
       ⟨fun _ => false, true, 0, [1], .success "k", true⟩] =
      [.error .discWaitTimeout, .error .discWaitTimeout] := by
  norm_num [runMovieQueue, movieJobPipeline, waitForDisc, waitPoll]

/-- C1, amended.  A disc-wait timeout is a local job failure: every job
before and after the timed-out one is still processed exactly as it
would be on its own, and the timed-out job's folder is relocated to the
Unable-to-Read quarantine area by the generic error handler. -/
theorem c1_timeout_is_local (t : Timing) (pre post : List MovieEnv) (env : MovieEnv)
    (h : movieJobPipeline t env = .error .discWaitTimeout) :
    runMovieQueue t (pre ++ env :: post) =
      runMovieQueue t pre ++ .error .discWaitTimeout :: runMovieQueue t post ∧
    moviesQuarantineRoot .discWaitTimeout = .unable := by
  refine ⟨?_, rfl⟩
  simp [runMovieQueue, h]

/-- Witness for `c1_timeout_is_local` at a concrete two-job queue whose
first job times out waiting for the disc. -/
theorem c1_witness :
    runMovieQueue ⟨60, 3⟩
      ([] ++ ⟨fun _ => false, true, 0, [1], .success "k", true⟩ ::
        [⟨fun _ => true, true, 0, [1], .success "k2", true⟩]) =
      runMovieQueue ⟨60, 3⟩ [] ++ .error .discWaitTimeout ::
        runMovieQueue ⟨60, 3⟩ [⟨fun _ => true, true, 0, [1], .success "k2", true⟩] ∧
    moviesQuarantineRoot .discWaitTimeout = .unable :=
  c1_timeout_is_local ⟨60, 3⟩ [] [⟨fun _ => true, true, 0, [1], .success "k2", true⟩]
    ⟨fun _ => false, true, 0, [1], .success "k", true⟩
    (by norm_num [movieJobPipeline, waitForDisc, waitPoll])

/-- C2.  The claim (and the movies module's own docstring) says the
quarantine destination depends on the failure cause — uncertain
classification goes to Review.  The TV engine does route by cause
(`mappingUncertain → review`, `noMkvsProduced → unable`), but the movies
`except Exception` handler relocates every failed job to Unable-to-Read,
including a review-required classification outcome: the code contradicts
its own documentation there. -/
theorem c2_quarantine_dispatch :
    movieJobPipeline ⟨60, 3⟩
      ⟨fun _ => true, true, 0, [1000], .review "user_sent_to_review", true⟩ =
      .error (.reviewRequired "user_sent_to_review") ∧
    moviesQuarantineRoot (.reviewRequired "user_sent_to_review") = QRoot.unable ∧
    QRoot.unable ≠ QRoot.review ∧
    tvQuarantineRoot .mappingUncertain = QRoot.review ∧
    tvQuarantineRoot .noMkvsProduced = QRoot.unable := by
  refine ⟨?_, rfl, by decide, rfl, rfl⟩
  norm_num [movieJobPipeline, waitForDisc, waitPoll]

/-- C3, counterexample.  Claim: on durations [148, 149, 90, 30] minutes
with floor 45 min, tolerance 2 s, multi-cut threshold 180 s, the outcome
is the AmbiguousCut escalation.  False on the code: 148 and 149 minutes
are 60 s apart, far beyond the 2 s tolerance, so they land in separate
clusters; the gap between the top two clusters is then 60 s ≤ 180 s, the
escalation test fails, and the 149-minute file is auto-selected. -/
theorem c3_counterexample :
    pick_keeper_or_prompt 2 180 2700 c3files =
      .success "t149" "auto_selected_best_candidate" ∧
    escalatesToPrompt (pick_keeper_or_prompt 2 180 2700 c3files) = false := by
  constructor <;>
    norm_num [pick_keeper_or_prompt, c3files, keeperCandidates, keeperClusters,
      List.insertionSort, List.orderedInsert, cutDescLE, addToClusters, largestBySize,
      escalatesToPrompt]

/-- C3, amended.  On [148, 149, 90, 30] minutes the 30-minute file is
discarded by the 45-minute floor and the 90-minute file is isolated in
its own cluster, but the 148- and 149-minute files also form separate
clusters (60 s apart, beyond the 2 s tolerance); the top-two cluster gap
|8940 − 8880| = 60 s does not exceed the 180 s multi-cut threshold, so
KeeperSelector auto-selects the 149-minute file instead of escalating. -/
theorem c3_amended :
    keeperCandidates 2700 c3files =
      [⟨"t149", 8940, 4000000⟩, ⟨"t148", 8880, 5000000⟩, ⟨"t90", 5400, 3000000⟩] ∧
    keeperClusters 2 2700 c3files =
      [[⟨"t149", 8940, 4000000⟩], [⟨"t148", 8880, 5000000⟩], [⟨"t90", 5400, 3000000⟩]] ∧
    |(8940 : ℚ) - 8880| ≤ 180 ∧
    pick_keeper_or_prompt 2 180 2700 c3files =
      .success "t149" "auto_selected_best_candidate" := by
  refine ⟨?_, ?_, by norm_num, ?_⟩ <;>
    norm_num [pick_keeper_or_prompt, c3files, keeperCandidates, keeperClusters,
      List.insertionSort, List.orderedInsert, cutDescLE, addToClusters, largestBySize]

/-- C4, counterexample.  Claim: in the Rip phase a non-zero ripper exit
with at least one output file continues to verification and
classification.  False for the movies engine: `cmd_rip` raises
`makemkv_error_rc_…` on any non-zero exit code before ever looking at
the output files, so a job with exit code 1 and a produced file still
fails. -/
theorem c4_counterexample :
    movieJobPipeline ⟨60, 3⟩ ⟨fun _ => true, true, 1, [123456], .success "k", true⟩ =
      .error (.makemkvError 1) ∧
    ([123456] : List ℕ) ≠ [] := by
  refine ⟨?_, by decide⟩
  norm_num [movieJobPipeline, waitForDisc, waitPoll]

/-- C4, amended.  Only the TV engine tolerates a non-zero ripper exit:
it continues to probing/classification whenever at least one MKV was
produced, while the movies engine fails the job on any non-zero exit
code regardless of outputs. -/
theorem c4_amended :
    (∀ (rc : ℤ) (mkvs : List String), mkvs ≠ [] →
      tv_after_rip rc mkvs = .continueProcessing) ∧
    (∀ (t : Timing) (env : MovieEnv),
      waitForDisc env.isLoaded t.maxWaitS t.pollS = true →
      env.structureOk = true →
      env.ripExitCode ≠ 0 →
      movieJobPipeline t env = .error (.makemkvError env.ripExitCode)) := by
  constructor
  · intro rc mkvs h
    simp [tv_after_rip, h]
  · intro t env hw hs hrc
    simp [movieJobPipeline, hw, hs, hrc]

/-- Witness for `c4_amended`: the TV engine proceeds past a failed exit
code when one MKV exists, and the movies engine fails a concrete job
with exit code 2 despite a produced output file. -/
theorem c4_witness :
    tv_after_rip 1 ["title_t00.mkv"] = .continueProcessing ∧
    movieJobPipeline ⟨60, 3⟩ ⟨fun _ => true, true, 2, [99], .success "k", true⟩ =
      .error (.makemkvError 2) := by
  refine ⟨c4_amended.1 1 ["title_t00.mkv"] (by decide), ?_⟩
  exact c4_amended.2 ⟨60, 3⟩ ⟨fun _ => true, true, 2, [99], .success "k", true⟩
    (by norm_num [waitForDisc, waitPoll]) rfl (by decide)

/-- C8, counterexample.  Claim: every window produced by WindowBuilder
satisfies `60 ≤ min_s` and `min_s ≤ max_s` in all three policy
branches.  False as stated: a manifest row whose declared range is
inverted (min 10, max 0 minutes) takes the manifest-only outlier branch
and yields the window (600, 0) with `min_s > max_s`. -/
theorem c8_counterexample :
    build_episode_windows [⟨some 10, some 0⟩] 6000 0 0 10 = [(600, 0)] ∧
    ¬ ((600 : ℤ) ≤ 0) := by
  refine ⟨?_, by decide⟩
  norm_num [build_episode_windows]

/-- C8, amended.  Provided the buffers are nonnegative, the typical
duration is at least 60 s (guaranteed upstream by the one-minute rip
floor), and every declared range is well-formed (`min ≤ max`, `max ≥ 1`
minute), every window of every policy branch satisfies
`60 ≤ min_s ∧ min_s ≤ max_s`. -/
theorem c8_window_invariant (eps : List EpManifest)
    (typical_s manifest_buf typical_buf special_delta : ℤ)
    (htyp : 60 ≤ typical_s) (hmb : 0 ≤ manifest_buf) (htb : 0 ≤ typical_buf)
    (heps : ∀ e ∈ eps, ∀ mi ma, e.min_minutes = some mi → e.max_minutes = some ma →
      mi ≤ ma ∧ 1 ≤ ma) :
    ∀ w ∈ build_episode_windows eps typical_s manifest_buf typical_buf special_delta,
      60 ≤ w.1 ∧ w.1 ≤ w.2 := by
  intro w hw
  simp only [build_episode_windows, List.mem_map] at hw
  obtain ⟨e, he, rfl⟩ := hw
  obtain ⟨mi?, ma?⟩ := e
  rcases mi? with _ | mi <;> rcases ma? with _ | ma
  · constructor <;> (simp; try omega)
  · constructor <;> (simp; try omega)
  · constructor <;> (simp; try omega)
  · obtain ⟨hle, hma⟩ := heps ⟨some mi, some ma⟩ he mi ma rfl rfl
    simp only
    split_ifs with h1 h2
    · constructor <;> (simp; try omega)
    · constructor <;> (simp; try omega)
    · constructor <;> (simp; try omega)

/-- Witness for `c8_window_invariant`: a single undeclared-range episode
with typical duration 6000 s and buffer 8 min gets the window
(5520, 6480), which satisfies the invariant. -/
theorem c8_witness :
    60 ≤ (((5520 : ℤ), (6480 : ℤ))).1 ∧ (((5520 : ℤ), (6480 : ℤ))).1 ≤ (((5520 : ℤ), (6480 : ℤ))).2 := by
  refine c8_window_invariant [⟨none, none⟩] 6000 12 8 10 (by decide) (by decide) (by decide)
    ?_ (5520, 6480) (by norm_num [build_episode_windows])
  intro e he mi ma h1 _h2
  rw [List.mem_singleton] at he
  subst he
  cases h1

/-- C10, counterexample.  Claim: if the computed destination already
exists, a fresh non-existing name is chosen in both engines.  False for
the TV engine: the `__dup_<timestamp>` alternative is picked without
re-checking its existence, so when that name is itself already present
the chosen destination is a pre-existing file. -/
theorem c10_counterexample :
    (fun s => s == "A.mkv" || s == "A__dup_T.mkv")
      (tvFinalDest (fun s => s == "A.mkv" || s == "A__dup_T.mkv") "A" "T") = true := by
  decide

/-- C10, amended.  The movies `(n)` counter loop always lands on a
non-existing destination (whenever it terminates at all, which is
exactly when some suffixed name is free); the TV engine only guarantees
a non-existing destination when the timestamped `__dup_` alternative is
itself not already present. -/
theorem c10_fresh_destination :
    (∀ (taken : String → Bool) (stem suf : String)
      (h : ∃ k, taken (movieCandName stem suf (k + 1)) = false),
      taken (movieFinalDest taken stem suf h) = false) ∧
    (∀ (taken : String → Bool) (stem stamp : String),
      taken (stem ++ "__dup_" ++ stamp ++ ".mkv") = false →
      taken (tvFinalDest taken stem stamp) = false) := by
  constructor
  · intro taken stem suf h
    unfold movieFinalDest
    split
    · assumption
    · exact Nat.find_spec h
  · intro taken stem stamp hdup
    unfold tvFinalDest
    split
    · exact hdup
    · next hne => simpa using hne

/-- For `n ≥ 5` the source trim removes at least one element per side
and strictly fewer than half the list in total. -/
theorem trimCount_bounds (n : ℕ) (h5 : 5 ≤ n) :
    1 ≤ trimCount n ∧ 2 * trimCount n < n := by
  unfold trimCount
  omega

/-- The spec's rounded-up trim also leaves a nonempty core for `n ≥ 5`. -/
theorem specTrimCount_bounds (n : ℕ) (h5 : 5 ≤ n) : 2 * specTrimCount n < n := by
  unfold specTrimCount
  omega

/-- Element `i` of the symmetric trim `s[k : len - k]` is element
`k + i` of `s`. -/
theorem trim_getD (s : List ℕ) (k i : ℕ) (hk : 2 * k < s.length)
    (hi : i < s.length - 2 * k) :
    ((s.drop k).take (s.length - 2 * k)).getD i 0 = s.getD (k + i) 0 := by
  have h1 : i < ((s.drop k).take (s.length - 2 * k)).length := by
    rw [List.length_take, List.length_drop]
    omega
  have h2 : k + i < s.length := by omega
  rw [List.getD_eq_getElem _ _ h1, List.getD_eq_getElem _ _ h2]
  rw [List.getElem_take, List.getElem_drop]

/-- The length of the symmetric trim. -/
theorem trim_length (s : List ℕ) (k : ℕ) (hk : 2 * k < s.length) :
    ((s.drop k).take (s.length - 2 * k)).length = s.length - 2 * k := by
  rw [List.length_take, List.length_drop]
  omega

/-- Symmetric trimming never moves a list's middle: `middleOf` of
`s[k : len - k]` equals `middleOf s` (trimming preserves parity and
shifts both middle indices by exactly `k`). -/
theorem middleOf_trim (s : List ℕ) (k : ℕ) (hk : 2 * k < s.length) :
    middleOf ((s.drop k).take (s.length - 2 * k)) = middleOf s := by
  unfold middleOf
  rw [trim_length s k hk]
  by_cases hodd : s.length % 2 = 1
  · have hpar : (s.length - 2 * k) % 2 = 1 := by omega
    rw [if_pos hpar, if_pos hodd]
    rw [trim_getD s k _ hk (by omega)]
    congr 1
    omega
  · have hpar : ¬ (s.length - 2 * k) % 2 = 1 := by omega
    rw [if_neg hpar, if_neg hodd]
    rw [trim_getD s k _ hk (by omega), trim_getD s k _ hk (by omega)]
    rw [show k + ((s.length - 2 * k) / 2 - 1) = s.length / 2 - 1 from by omega,
      show k + (s.length - 2 * k) / 2 = s.length / 2 from by omega]

/-- The middle of a sorted nonempty list sits between two of its
members. -/
theorem middleOf_between (s : List ℕ) (hs : List.Sorted (· ≤ ·) s) (hne : s ≠ []) :
    ∃ a ∈ s, ∃ b ∈ s, a ≤ middleOf s ∧ middleOf s ≤ b := by
  have hlen : 0 < s.length := List.length_pos.mpr hne
  unfold middleOf
  by_cases hodd : s.length % 2 = 1
  · rw [if_pos hodd]
    have hi : s.length / 2 < s.length := by omega
    rw [List.getD_eq_getElem _ _ hi]
    exact ⟨s[s.length / 2], List.getElem_mem hi, s[s.length / 2], List.getElem_mem hi,
      le_refl _, le_refl _⟩
  · rw [if_neg hodd]
    have hi1 : s.length / 2 - 1 < s.length := by omega
    have hi2 : s.length / 2 < s.length := by omega
    rw [List.getD_eq_getElem _ _ hi1, List.getD_eq_getElem _ _ hi2]
    have hab : s[s.length / 2 - 1] ≤ s[s.length / 2] :=
      List.pairwise_iff_getElem.mp hs _ _ hi1 hi2 (by omega)
    exact ⟨s[s.length / 2 - 1], List.getElem_mem hi1, s[s.length / 2], List.getElem_mem hi2,
      by omega, by omega⟩

/-- For a sorted batch of at least 5 durations: the source's trimmed
core is nonempty, and both the source trim and the spec's rounded-up
trim leave a remainder whose median is the middle of the full sorted
list. -/
theorem sorted_trim_median (L : List ℕ) (hs : List.Sorted (· ≤ ·) L) (h5 : 5 ≤ L.length) :
    trimmedCore L ≠ [] ∧
    pyMedian (trimmedCore L) = middleOf L ∧
    pyMedian (specTrimmedCore L) = middleOf L := by
  obtain ⟨htc1, htc2⟩ := trimCount_bounds L.length h5
  have hsc2 := specTrimCount_bounds L.length h5
  have hlc : (trimmedCore L).length = L.length - 2 * trimCount L.length := by
    unfold trimmedCore
    exact trim_length L (trimCount L.length) htc2
  refine ⟨?_, ?_, ?_⟩
  · intro hc
    rw [hc] at hlc
    simp at hlc
    omega
  · have hsorted_core : List.Sorted (· ≤ ·) (trimmedCore L) := by
      unfold trimmedCore
      exact List.Pairwise.sublist ((List.take_sublist _ _).trans (List.drop_sublist _ _)) hs
    rw [pyMedian, List.Sorted.insertionSort_eq hsorted_core]
    unfold trimmedCore
    exact middleOf_trim L (trimCount L.length) htc2
  · have hsorted_core : List.Sorted (· ≤ ·) (specTrimmedCore L) := by
      unfold specTrimmedCore
      exact List.Pairwise.sublist ((List.take_sublist _ _).trans (List.drop_sublist _ _)) hs
    rw [pyMedian, List.Sorted.insertionSort_eq hsorted_core]
    unfold specTrimmedCore
    exact middleOf_trim L (specTrimCount L.length) hsc2

/-- Unfolding `compute_typical_runtime_seconds` on a batch with at
least 5 probed durations: the estimator returns the median of the
trimmed core. -/
theorem compute_typical_eq (files : List (Option ℕ))
    (h5 : 5 ≤ (files.filterMap id).length) :
    compute_typical_runtime_seconds files =
      some (pyMedian (trimmedCore ((files.filterMap id).insertionSort (· ≤ ·)))) := by
  have hlen : ((files.filterMap id).insertionSort (· ≤ ·)).length =
      (files.filterMap id).length := List.length_insertionSort _ _
  have h5' : 5 ≤ ((files.filterMap id).insertionSort (· ≤ ·)).length := by omega
  have hne : ¬ ((files.filterMap id).insertionSort (· ≤ ·)).isEmpty = true := by
    rw [List.isEmpty_iff_length_eq_zero]
    omega
  have hcoreNe : ¬ (trimmedCore ((files.filterMap id).insertionSort (· ≤ ·))).isEmpty
      = true := by
    have htc := trimCount_bounds _ h5'
    have hlc : (trimmedCore ((files.filterMap id).insertionSort (· ≤ ·))).length =
        ((files.filterMap id).insertionSort (· ≤ ·)).length -
          2 * trimCount ((files.filterMap id).insertionSort (· ≤ ·)).length := by
      unfold trimmedCore
      exact trim_length _ _ htc.2
    rw [List.isEmpty_iff_length_eq_zero]
    omega
  simp only [compute_typical_runtime_seconds]
  rw [if_neg hne, if_pos h5', if_neg hcoreNe]

/-- C5.  For every batch whose probed durations number at least 5, the
estimator sorts the durations and returns the median of the symmetric
trim (which is nonempty, so the full-median fallback is not taken);
the result equals the median of the spec's rounded-up trim as well
(symmetric trims share their middle), and it lies between two members
of the untrimmed duration multiset, hence within its min–max range. -/
theorem c5_duration_estimator (files : List (Option ℕ)) (durs : List ℕ)
    (hd : durs = (files.filterMap id).insertionSort (· ≤ ·))
    (h5 : 5 ≤ (files.filterMap id).length) :
    compute_typical_runtime_seconds files = some (pyMedian (trimmedCore durs)) ∧
    trimmedCore durs ≠ [] ∧
    pyMedian (trimmedCore durs) = pyMedian (specTrimmedCore durs) ∧
    ∃ a ∈ files.filterMap id, ∃ b ∈ files.filterMap id,
      a ≤ pyMedian (trimmedCore durs) ∧ pyMedian (trimmedCore durs) ≤ b := by
  subst hd
  have hsort : List.Sorted (· ≤ ·) ((files.filterMap id).insertionSort (· ≤ ·)) :=
    List.sorted_insertionSort _ _
  have hlen : ((files.filterMap id).insertionSort (· ≤ ·)).length =
      (files.filterMap id).length := List.length_insertionSort _ _
  have h5' : 5 ≤ ((files.filterMap id).insertionSort (· ≤ ·)).length := by omega
  obtain ⟨hne, hm1, hm2⟩ := sorted_trim_median _ hsort h5'
  have hLne : ((files.filterMap id).insertionSort (· ≤ ·)) ≠ [] :=
    List.length_pos.mp (by omega)
  obtain ⟨a, ha, b, hb, h1, h2⟩ := middleOf_between _ hsort hLne
  refine ⟨compute_typical_eq files h5, hne, by rw [hm1, hm2], ?_⟩
  exact ⟨a, (List.perm_insertionSort _ _).mem_iff.mp ha,
    b, (List.perm_insertionSort _ _).mem_iff.mp hb,
    by rw [hm1]; exact h1, by rw [hm1]; exact h2⟩

/-- Witness for `c5_duration_estimator` on the concrete batch
[100, 200, 150, 50, 300] s (sorted: [50, 100, 150, 200, 300], trim 1
each side, median of [100, 150, 200] = 150). -/
theorem c5_witness :
    compute_typical_runtime_seconds [some 100, some 200, some 150, some 50, some 300] =
      some (pyMedian (trimmedCore [50, 100, 150, 200, 300])) :=
  (c5_duration_estimator [some 100, some 200, some 150, some 50, some 300]
    [50, 100, 150, 200, 300] (by decide) (by decide)).1

/-- The all-skip base row accumulates `j × skip`. -/
theorem dpRow0_eq (skip : ℚ) : ∀ j : ℕ, dpRow0 skip j = j * skip := by
  intro j
  induction j with
  | zero => simp [dpRow0]
  | succ j ih =>
    rw [dpRow0, ih]
    push_cast
    ring

/-- C6.  The DP table satisfies exactly the specified recurrence: the
base row charges `j × skipPenalty`; a cell with infinite match cost
keeps only the skip branch; a finite-match cell is the minimum of the
skip and match branches; and the stored take flag is set exactly when
the match branch is strictly cheaper, so an exact tie resolves to the
skip branch. -/
theorem c6_dp_recurrence (eps : List EpWin) (files : List FileInfo) (skip : ℚ) :
    (∀ j : ℕ, dpCost eps files skip 0 j = j * skip) ∧
    (∀ i : ℕ, dpCost eps files skip (i + 1) 0 = INF) ∧
    (∀ i j : ℕ, matchCost (eps.getD i default) (files.getD j default) = none →
      dpCost eps files skip (i + 1) (j + 1) = dpCost eps files skip (i + 1) j + skip) ∧
    (∀ i j : ℕ, ∀ c : ℚ, matchCost (eps.getD i default) (files.getD j default) = some c →
      dpCost eps files skip (i + 1) (j + 1) =
        min (dpCost eps files skip (i + 1) j + skip) (dpCost eps files skip i j + c)) ∧
    (∀ i j : ℕ, ∀ c : ℚ, matchCost (eps.getD i default) (files.getD j default) = some c →
      (takeFlag eps files skip (i + 1) (j + 1) = true ↔
        dpCost eps files skip i j + c < dpCost eps files skip (i + 1) j + skip)) := by
  have hrow : ∀ i : ℕ, dpCost eps files skip (i + 1) = dpEntry (dpCost eps files skip i)
      (fun j => matchCost (eps.getD i default) (files.getD j default)) skip := fun _ => rfl
  refine ⟨fun j => dpRow0_eq skip j, fun i => rfl, ?_, ?_, ?_⟩
  · intro i j hmc
    rw [hrow]
    simp only [dpEntry, hmc]
  · intro i j c hmc
    rw [hrow]
    simp only [dpEntry, hmc]
    rcases lt_or_ge (dpCost eps files skip i j + c)
        (dpEntry (dpCost eps files skip i)
          (fun j => matchCost (eps.getD i default) (files.getD j default)) skip j + skip)
      with hlt | hge
    · rw [if_pos hlt, min_eq_right hlt.le]
    · rw [if_neg (not_lt.mpr hge), min_eq_left hge]
  · intro i j c hmc
    simp only [takeFlag, hmc, decide_eq_true_iff]

/-- Witness for `c6_dp_recurrence` on a one-episode, one-file instance:
the base row at `j = 2`, the finite-cost minimum form of cell (1, 1),
and the strict-inequality characterisation of its take flag. -/
theorem c6_witness :
    dpCost [(⟨60, 180⟩ : EpWin)] [(⟨some 120⟩ : FileInfo)] 1 0 2 = (2 : ℕ) * 1 ∧
    dpCost [(⟨60, 180⟩ : EpWin)] [(⟨some 120⟩ : FileInfo)] 1 1 1 =
      min (dpCost [(⟨60, 180⟩ : EpWin)] [(⟨some 120⟩ : FileInfo)] 1 1 0 + 1)
        (dpCost [(⟨60, 180⟩ : EpWin)] [(⟨some 120⟩ : FileInfo)] 1 0 0 + 0) ∧
    (takeFlag [(⟨60, 180⟩ : EpWin)] [(⟨some 120⟩ : FileInfo)] 1 1 1 = true ↔
      dpCost [(⟨60, 180⟩ : EpWin)] [(⟨some 120⟩ : FileInfo)] 1 0 0 + 0 <
        dpCost [(⟨60, 180⟩ : EpWin)] [(⟨some 120⟩ : FileInfo)] 1 1 0 + 1) :=
  ⟨(c6_dp_recurrence [⟨60, 180⟩] [⟨some 120⟩] 1).1 2,
   (c6_dp_recurrence [⟨60, 180⟩] [⟨some 120⟩] 1).2.2.2.1 0 0 0
     (by norm_num [matchCost, List.getD]),
   (c6_dp_recurrence [⟨60, 180⟩] [⟨some 120⟩] 1).2.2.2.2 0 0 0
     (by norm_num [matchCost, List.getD])⟩

/-- The backtracking loop's exit value of `i` never exceeds its entry
value. -/
theorem backtrackEnd_le (eps : List EpWin) (files : List FileInfo) (skip : ℚ) :
    ∀ j i, backtrackEnd eps files skip i j ≤ i := by
  intro j
  induction j with
  | zero =>
    intro i
    cases i <;> simp [backtrackEnd]
  | succ j ih =>
    intro i
    cases i with
    | zero => simp [backtrackEnd]
    | succ i =>
      by_cases h : takeFlag eps files skip (i + 1) (j + 1) = true
      · calc backtrackEnd eps files skip (i + 1) (j + 1)
            = backtrackEnd eps files skip i j := by simp [backtrackEnd, h]
          _ ≤ i := ih i
          _ ≤ i + 1 := by omega
      · have h' : takeFlag eps files skip (i + 1) (j + 1) = false := by
          revert h
          cases takeFlag eps files skip (i + 1) (j + 1) <;> simp
        simpa [backtrackEnd, h'] using ih (i + 1)

/-- The episode indices recovered by backtracking from `(i, j)` are
exactly `i - 1, i - 2, …` down to the exit value of `i`, in that
(descending) order. -/
theorem backtrack_fst (eps : List EpWin) (files : List FileInfo) (skip : ℚ) :
    ∀ j i, (backtrack eps files skip i j).map Prod.fst =
      (List.range' (backtrackEnd eps files skip i j)
        (i - backtrackEnd eps files skip i j)).reverse := by
  intro j
  induction j with
  | zero =>
    intro i
    cases i <;> simp [backtrack, backtrackEnd]
  | succ j ih =>
    intro i
    cases i with
    | zero => simp [backtrack, backtrackEnd]
    | succ i =>
      by_cases h : takeFlag eps files skip (i + 1) (j + 1) = true
      · have he := backtrackEnd_le eps files skip j i
        simp only [backtrack, backtrackEnd, h, if_true, List.map_cons, ih i]
        rw [show i + 1 - backtrackEnd eps files skip i j =
              (i - backtrackEnd eps files skip i j) + 1 from by omega,
            List.range'_1_concat,
            show backtrackEnd eps files skip i j +
              (i - backtrackEnd eps files skip i j) = i from by omega,
            List.reverse_append]
        simp
      · have h' : takeFlag eps files skip (i + 1) (j + 1) = false := by
          revert h
          cases takeFlag eps files skip (i + 1) (j + 1) <;> simp
        simpa [backtrack, backtrackEnd, h'] using ih (i + 1)

/-- The file indices recovered by backtracking are strictly decreasing
(in the produced, reversed order) and bounded by the entry cell. -/
theorem backtrack_snd (eps : List EpWin) (files : List FileInfo) (skip : ℚ) :
    ∀ j i, ((backtrack eps files skip i j).Pairwise (fun p q => q.2 < p.2)) ∧
      (∀ p ∈ backtrack eps files skip i j, p.2 < j ∧ p.1 < i) := by
  intro j
  induction j with
  | zero =>
    intro i
    cases i <;> simp [backtrack]
  | succ j ih =>
    intro i
    cases i with
    | zero => simp [backtrack]
    | succ i =>
      by_cases h : takeFlag eps files skip (i + 1) (j + 1) = true
      · obtain ⟨hpw, hb⟩ := ih i
        constructor
        · simp only [backtrack, h, if_true]
          exact List.Pairwise.cons (fun q hq => (hb q hq).1) hpw
        · intro p hp
          simp only [backtrack, h, if_true, List.mem_cons] at hp
          rcases hp with rfl | hp
          · exact ⟨by omega, by omega⟩
          · exact ⟨by have := (hb p hp).1; omega, by have := (hb p hp).2; omega⟩
      · have h' : takeFlag eps files skip (i + 1) (j + 1) = false := by
          revert h
          cases takeFlag eps files skip (i + 1) (j + 1) <;> simp
        obtain ⟨hpw, hb⟩ := ih (i + 1)
        constructor
        · simpa [backtrack, h'] using hpw
        · intro p hp
          simp only [backtrack, h', Bool.false_eq_true, if_false] at hp
          exact ⟨by have := (hb p hp).1; omega, (hb p hp).2⟩

/-- C7.  Whenever the DP returns an assignment, its episode indices are
exactly `0, …, m-1` in order (every expected unit is covered exactly
once), and both coordinates are strictly increasing across the pair
list, so each file index occurs at most once and the matching is
order-preserving. -/
theorem c7_assignment (eps : List EpWin) (files : List FileInfo) (skip : ℚ)
    (pairs : List (ℕ × ℕ)) (err : ℚ)
    (h : dp_map_files_to_episodes eps files skip = (some pairs, err)) :
    pairs.map Prod.fst = List.range eps.length ∧
    pairs.Pairwise (fun p q => p.1 < q.1 ∧ p.2 < q.2) := by
  simp only [dp_map_files_to_episodes] at h
  split_ifs at h with h1 h2 h3
  · simp at h
  · simp at h
  all_goals (
    have he0 : backtrackEnd eps files skip eps.length files.length = 0 := by
      by_contra hc
      exact h2 hc
    simp only [Prod.mk.injEq, Option.some.injEq] at h
    obtain ⟨hX, -⟩ := h
    have hpairs : pairs = (backtrack eps files skip eps.length files.length).reverse := hX.symm
    have hfst : pairs.map Prod.fst = List.range eps.length := by
      rw [hpairs, List.map_reverse, backtrack_fst eps files skip files.length eps.length,
        he0, List.reverse_reverse, Nat.sub_zero, List.range_eq_range']
    refine ⟨hfst, ?_⟩
    have h1p : pairs.Pairwise (fun p q => p.1 < q.1) := by
      have hr := List.pairwise_lt_range eps.length
      rw [← hfst, List.pairwise_map] at hr
      exact hr
    have h2p : pairs.Pairwise (fun p q => p.2 < q.2) := by
      rw [hpairs, List.pairwise_reverse]
      exact (backtrack_snd eps files skip files.length eps.length).1
    exact h1p.and h2p)

/-- Witness for `c7_assignment`: the one-episode, one-file instance
returns the assignment [(0, 0)] with the claimed shape. -/
theorem c7_witness :
    ([((0 : ℕ), (0 : ℕ))].map Prod.fst = List.range [(⟨60, 180⟩ : EpWin)].length) ∧
    [((0 : ℕ), (0 : ℕ))].Pairwise (fun p q => p.1 < q.1 ∧ p.2 < q.2) :=
  c7_assignment [⟨60, 180⟩] [⟨some 120⟩] 1 [(0, 0)] 0
    (by norm_num [dp_map_files_to_episodes, dpCost, dpRow0, dpEntry, matchCost,
      backtrack, backtrackEnd, takeFlag, pairErr, INF])

/-- The retry loop's sleep trace grows by `delay * (attempt + 1)` per
failed attempt: starting with the first `k` backoffs already recorded,
at most `r` more attempts are made and the final trace is an initial
segment of `delay * 1, delay * 2, …`. -/
theorem safeMoveGo_sleeps (mv : ℕ → Bool) (copyRes : Option Bool) (delay : ℚ) :
    ∀ r k, ∃ t ≤ r,
      (safeMoveGo mv copyRes delay r k
        (((List.range k).map (fun i : ℕ => delay * (i + 1))).reverse)).sleeps =
      (List.range (k + t)).map (fun i : ℕ => delay * (i + 1)) := by
  intro r
  induction r with
  | zero =>
    intro k
    refine ⟨0, le_refl 0, ?_⟩
    rcases copyRes with _ | b
    · simp [safeMoveGo]
    · rcases b <;> simp [safeMoveGo]
  | succ r ih =>
    intro k
    by_cases hmv : mv k
    · exact ⟨0, Nat.zero_le _, by simp [safeMoveGo, hmv]⟩
    · obtain ⟨t, ht, hs⟩ := ih (k + 1)
      refine ⟨t + 1, by omega, ?_⟩
      have hacc : (delay * ((k : ℚ) + 1) ::
          ((List.range k).map (fun i : ℕ => delay * (i + 1))).reverse) =
          ((List.range (k + 1)).map (fun i : ℕ => delay * (i + 1))).reverse := by
        rw [List.range_succ, List.map_append, List.reverse_append]
        simp
      have hstep : safeMoveGo mv copyRes delay (r + 1) k
          (((List.range k).map (fun i : ℕ => delay * (i + 1))).reverse) =
          safeMoveGo mv copyRes delay r (k + 1)
          (((List.range (k + 1)).map (fun i : ℕ => delay * (i + 1))).reverse) := by
        rw [← hacc]
        simp [safeMoveGo, hmv]
      rw [hstep, show k + (t + 1) = (k + 1) + t from by omega]
      exact hs

/-- The copy-then-delete fallback runs exactly when every one of the `r`
remaining move attempts fails. -/
theorem safeMoveGo_fellBack (mv : ℕ → Bool) (copyRes : Option Bool) (delay : ℚ) :
    ∀ r k acc, ((safeMoveGo mv copyRes delay r k acc).fellBack = true ↔
      ∀ j, j < r → mv (k + j) = false) := by
  intro r
  induction r with
  | zero =>
    intro k acc
    rcases copyRes with _ | b
    · simp [safeMoveGo]
    · rcases b <;> simp [safeMoveGo]
  | succ r ih =>
    intro k acc
    by_cases hmv : mv k
    · simp only [safeMoveGo, hmv, if_true]
      simp only [Bool.false_eq_true, false_iff]
      intro hall
      have h0 := hall 0 (by omega)
      rw [Nat.add_zero] at h0
      rw [h0] at hmv
      cases hmv
    · have hmv' : mv k = false := by
        revert hmv
        cases mv k <;> simp
      have hstep : safeMoveGo mv copyRes delay (r + 1) k acc =
          safeMoveGo mv copyRes delay r (k + 1) (delay * ((k : ℚ) + 1) :: acc) := by
        simp [safeMoveGo, hmv']
      rw [hstep, ih (k + 1) (delay * ((k : ℚ) + 1) :: acc)]
      constructor
      · intro H j hj
        rcases j with _ | j
        · simpa using hmv'
        · rw [show k + (j + 1) = (k + 1) + j from by omega]
          exact H j (by omega)
      · intro H j hj
        rw [show (k + 1) + j = k + (j + 1) from by omega]
        exact H (j + 1) (by omega)

/-- Whenever `safe_move` returns normally the destination exists: every
normal-return branch (early move success, or the post-fallback existence
check passing) carries `dstExists = true`. -/
theorem safeMoveGo_ok_dst (mv : ℕ → Bool) (copyRes : Option Bool) (delay : ℚ) :
    ∀ r k acc, (safeMoveGo mv copyRes delay r k acc).result = .ok () →
      (safeMoveGo mv copyRes delay r k acc).dstExists = true := by
  intro r
  induction r with
  | zero =>
    intro k acc
    rcases copyRes with _ | b
    · simp [safeMoveGo]
    · rcases b <;> simp [safeMoveGo]
  | succ r ih =>
    intro k acc
    by_cases hmv : mv k
    · simp [safeMoveGo, hmv]
    · have hmv' : mv k = false := by
        revert hmv
        cases mv k <;> simp
      simpa [safeMoveGo, hmv'] using ih (k + 1) (delay * ((k : ℚ) + 1) :: acc)

/-- When the fallback did run and the copy completed, `safe_move` raises
the final `RuntimeError` exactly when the copy left no destination. -/
theorem safeMoveGo_fallback_raise (mv : ℕ → Bool) (delay : ℚ) (b : Bool) :
    ∀ r k acc, (safeMoveGo mv (some b) delay r k acc).fellBack = true →
      ((safeMoveGo mv (some b) delay r k acc).result = .error .destMissing ↔ b = false) := by
  intro r
  induction r with
  | zero =>
    intro k acc _hf
    rcases b <;> simp [safeMoveGo]
  | succ r ih =>
    intro k acc hf
    by_cases hmv : mv k
    · simp [safeMoveGo, hmv] at hf
    · have hmv' : mv k = false := by
        revert hmv
        cases mv k <;> simp
      have hstep : safeMoveGo mv (some b) delay (r + 1) k acc =
          safeMoveGo mv (some b) delay r (k + 1) (delay * ((k : ℚ) + 1) :: acc) := by
        simp [safeMoveGo, hmv']
      rw [hstep] at hf ⊢
      exact ih (k + 1) _ hf

/-- C9.  `safe_move` (i) makes at most `retries` move attempts, sleeping
`delay * attemptNumber` after each failure; (ii) runs the copy-then-
delete fallback exactly when all `retries` attempts fail; (iii) only
returns normally with the destination existing; and (iv) in a completed
fallback raises the final error exactly when the destination is still
missing. -/
theorem c9_safe_move (mv : ℕ → Bool) (copyRes : Option Bool) (retries : ℕ) (delay : ℚ) :
    (∃ t ≤ retries, (safe_move mv copyRes retries delay).sleeps =
      (List.range t).map (fun i : ℕ => delay * (i + 1))) ∧
    ((safe_move mv copyRes retries delay).fellBack = true ↔ ∀ k < retries, mv k = false) ∧
    ((safe_move mv copyRes retries delay).result = .ok () →
      (safe_move mv copyRes retries delay).dstExists = true) ∧
    (∀ b, copyRes = some b → (safe_move mv copyRes retries delay).fellBack = true →
      ((safe_move mv copyRes retries delay).result = .error .destMissing ↔ b = false)) := by
  have hacc0 : ([] : List ℚ) =
      (((List.range 0).map (fun i : ℕ => delay * (i + 1))).reverse) := by simp
  refine ⟨?_, ?_, ?_, ?_⟩
  · obtain ⟨t, ht, hs⟩ := safeMoveGo_sleeps mv copyRes delay retries 0
    refine ⟨t, ht, ?_⟩
    rw [safe_move, hacc0, hs]
    simp
  · rw [safe_move, safeMoveGo_fellBack mv copyRes delay retries 0 []]
    constructor
    · intro H k hk
      simpa using H k hk
    · intro H j hj
      simpa using H j hj
  · exact safeMoveGo_ok_dst mv copyRes delay retries 0 []
  · intro b hb hf
    subst hb
    exact safeMoveGo_fallback_raise mv delay b retries 0 [] hf

/-- Witness for `c9_safe_move` at concrete oracles: a move that succeeds
on the second attempt returns with the destination existing, and a run
whose fallback copy fails raises the destination-missing error. -/
theorem c9_witness :
    (safe_move (fun k => decide (k = 1)) (some true) 3 2).dstExists = true ∧
    ((safe_move (fun _ => false) (some false) 2 1).result = .error .destMissing ↔ false = false) :=
  ⟨(c9_safe_move (fun k => decide (k = 1)) (some true) 3 2).2.2.1
      (by norm_num [safe_move, safeMoveGo]),
   (c9_safe_move (fun _ => false) (some false) 2 1).2.2.2 false rfl
      (by norm_num [safe_move, safeMoveGo])⟩

/-- Witness for `c10_fresh_destination` at concrete directory contents:
the movies loop skips the occupied " (1)" name, and the TV dup name is
fresh when it is not already present. -/
theorem c10_witness :
    (fun s => s == "AA (1).mkv" : String → Bool)
      (movieFinalDest (fun s => s == "AA (1).mkv") "AA" ".mkv" ⟨1, rfl⟩) = false ∧
    (fun s => s == "Z.mkv" : String → Bool) (tvFinalDest (fun s => s == "Z.mkv") "Z" "S") = false :=
  ⟨c10_fresh_destination.1 (fun s => s == "AA (1).mkv") "AA" ".mkv" ⟨1, rfl⟩,
   c10_fresh_destination.2 (fun s => s == "Z.mkv") "Z" "S" (by decide)⟩

end DiscMapper
